import Mathlib

/-!
Verification of the workspace-reconciliation logic of `modal_aitoolkit_ui.py`.

The script's filesystem-mutating code (the `ui_server` setup section, the
`download_files` helper and the `setup_directories` helper) is embedded
shallowly over an abstract filesystem: a partial map from absolute paths
(lists of components) to nodes (regular files with contents, directories,
and symbolic links).  Shell commands (`rm -rf`, `ln -sf`, `cp`, `chmod`)
and Python library calls (`os.makedirs`, `os.path.exists`, `shutil.copy2`,
`shutil.copytree`) become functions on this state.  Permission bits are not
modelled: `chmod -R 777` (run with `check=False`) only appears as a traced
event.  The external `npx prisma db push` command is opaque; it is modelled
by a parameter giving the contents of the local database file it produces,
or `none` when it fails (the source runs it with `check=False`).
-/

namespace Aitoolkit

/-- An absolute filesystem path, as its list of components from the root. -/
abbrev Path := List String

/-- A filesystem node: a regular file with its contents, a directory, or a
symbolic link storing its (unresolved) target path. -/
inductive Node where
  | file (data : List Nat)
  | dir
  | symlink (tgt : Path)
deriving DecidableEq

/-- A filesystem state: a partial map from paths to nodes. -/
def FS := Path → Option Node

/-- Update the node stored at exactly path `p` (or remove it, for `none`). -/
def setEntry (s : FS) (p : Path) (n : Option Node) : FS :=
  fun q => if q = p then n else s q

/-- `isUnder t q` holds when `q` is `t` itself or lies in the subtree rooted
at `t` (componentwise prefix test). -/
def isUnder (t q : Path) : Bool :=
  t.isPrefixOf q

/-- `rm -rf p` with `check=False` (source lines 74, 75, 92, 93): removes the
entry at `p` and everything below it; removing a symlink removes only the
link entry (its children, if any, live under the target path).  Never
fails. -/
def rmRf (s : FS) (p : Path) : FS :=
  fun q => if isUnder p q then none else s q

/-- The parent directory of a path. -/
def parent (p : Path) : Path := p.dropLast

/-- Whether the entry at `p` is a directory. -/
def isDirAt (s : FS) (p : Path) : Bool :=
  match s p with
  | some .dir => true
  | _ => false

/-- Errors raised by the reconciler: a `ln -sf` run with `check=True`
raising `CalledProcessError` (source lines 76, 77, 107-109), or
`os.makedirs` raising `FileExistsError` on a non-directory entry. -/
inductive Err where
  | lnFailed (tgt lnk : Path)
  | mkdirsFailed (p : Path)
deriving DecidableEq

/-- `ln -sf tgt lnk` with `check=True`: requires the parent directory of the
link path to exist; replaces any non-directory entry at the link path with a
symlink (the `-f` flag).  Every `ln` in the source is preceded by `rm -rf`
of the same path, so the link path never exists at call time; an existing
directory there is conservatively treated as a failure. -/
def lnSf (s : FS) (tgt lnk : Path) : Except Err FS :=
  if isDirAt s (parent lnk) then
    if isDirAt s lnk then .error (.lnFailed tgt lnk)
    else .ok (setEntry s lnk (some (.symlink tgt)))
  else .error (.lnFailed tgt lnk)

/-- One step of `os.makedirs`: ensure the entry at `p` is a directory,
failing if a non-directory entry is already there. -/
def ensureDir (s : FS) (p : Path) : Except Err FS :=
  match s p with
  | none => .ok (setEntry s p (some .dir))
  | some .dir => .ok s
  | some _ => .error (.mkdirsFailed p)

/-- All nonempty prefixes of a path, shortest first. -/
def prefixesOf (p : Path) : List Path :=
  (List.range p.length).map (fun i => p.take (i + 1))

/-- `os.makedirs(p, exist_ok=True)` (source lines 80-83, 91): create every
missing directory along `p`; raises if any component exists as a
non-directory. -/
def mkdirs (s : FS) (p : Path) : Except Err FS :=
  (prefixesOf p).foldlM ensureDir s

/-- `cp src dst` with `check=False` (source lines 102-104): copies a regular
file; on any failure (e.g. missing source) the filesystem is unchanged. -/
def cpFile (s : FS) (src dst : Path) : FS :=
  match s src with
  | some (.file d) => setEntry s dst (some (.file d))
  | _ => s

-- Fixed paths of the source script.

/-- `/root/ai-toolkit/output` (line 74/76). -/
def outputLink : Path := ["root", "ai-toolkit", "output"]

/-- `/root/.cache` (line 75/77). -/
def cacheLink : Path := ["root", ".cache"]

/-- `/mnt/output`, the durable output volume mount (line 48). -/
def mntOutput : Path := ["mnt", "output"]

/-- `/mnt/cache`, the durable cache volume mount (line 52). -/
def mntCache : Path := ["mnt", "cache"]

/-- `/mnt/output/datasets` (line 80). -/
def datasetsDir : Path := ["mnt", "output", "datasets"]

/-- `/mnt/output/jobs` (line 81). -/
def jobsDir : Path := ["mnt", "output", "jobs"]

/-- `/mnt/output/models` (line 82). -/
def modelsDir : Path := ["mnt", "output", "models"]

/-- `/mnt/output/database` (line 90). -/
def dbDir : Path := ["mnt", "output", "database"]

/-- `/mnt/output/database/dev.db`, the durable database file (line 96). -/
def dbVol : Path := ["mnt", "output", "database", "dev.db"]

/-- `/root/ai-toolkit/ui/prisma`. -/
def prismaDir : Path := ["root", "ai-toolkit", "ui", "prisma"]

/-- `/root/ai-toolkit/ui/prisma/dev.db`, the local database path (line 92). -/
def dbLocal : Path := ["root", "ai-toolkit", "ui", "prisma", "dev.db"]

/-- `/root/ai-toolkit/ui/prisma/dev.db-journal` (line 93). -/
def dbJournal : Path := ["root", "ai-toolkit", "ui", "prisma", "dev.db-journal"]

/-- The external `npx prisma db push` run with `check=False` (lines 98-100),
modelled by its observable effect: `pr = some d` when it succeeds and
(re)creates the local database file with contents `d`; `pr = none` when it
fails and leaves the filesystem unchanged. -/
def runPrisma (pr : Option (List Nat)) (s : FS) : FS :=
  match pr with
  | some d => setEntry s dbLocal (some (.file d))
  | none => s

/-- Observable events of one `ui_server` boot, in program order. -/
inductive Ev where
  | rm (p : Path)
  | ln (tgt lnk : Path)
  | mkdirs (p : Path)
  | chmod (p : Path)
  | dbInit
  | cp (src dst : Path)
  | launch
deriving DecidableEq

/-- The full event trace of a successful `ui_server` boot; `dbExists` is
whether the durable database file was present at the check on line 96 (if
not, the init-and-copy sub-step of lines 97-104 runs). -/
def mkTrace (dbExists : Bool) : List Ev :=
  [Ev.rm outputLink, Ev.rm cacheLink,
   Ev.ln mntOutput outputLink, Ev.ln mntCache cacheLink,
   Ev.mkdirs datasetsDir, Ev.mkdirs jobsDir, Ev.mkdirs modelsDir,
   Ev.mkdirs mntCache,
   Ev.chmod mntOutput, Ev.chmod mntCache,
   Ev.mkdirs dbDir, Ev.rm dbLocal, Ev.rm dbJournal] ++
  (if dbExists then [] else [Ev.dbInit, Ev.cp dbLocal dbVol]) ++
  [Ev.ln dbVol dbLocal, Ev.launch]

/-- The filesystem-mutating portion of `ui_server` (source lines 70-139),
returning the final filesystem (or the error that aborted the boot) paired
with the trace of completed operations.  Environment-variable setup and
`print` calls (lines 111-133) have no filesystem effect; the final
`subprocess.Popen` (line 135) is the `launch` event.  `pr` models the
outcome of the external `npx prisma db push` (see `runPrisma`). -/
def uiServer (pr : Option (List Nat)) (s0 : FS) : Except Err FS × List Ev :=
  -- lines 74-75: rm -rf output and .cache (check=False)
  -- line 76: ln -sf /mnt/output /root/ai-toolkit/output (check=True)
  match lnSf (rmRf (rmRf s0 outputLink) cacheLink) mntOutput outputLink with
  | .error e => (.error e, (mkTrace true).take 2)
  | .ok s3 =>
    -- line 77: ln -sf /mnt/cache /root/.cache (check=True)
    match lnSf s3 mntCache cacheLink with
    | .error e => (.error e, (mkTrace true).take 3)
    | .ok s4 =>
      -- lines 80-83: os.makedirs(..., exist_ok=True)
      match mkdirs s4 datasetsDir with
      | .error e => (.error e, (mkTrace true).take 4)
      | .ok s5 =>
        match mkdirs s5 jobsDir with
        | .error e => (.error e, (mkTrace true).take 5)
        | .ok s6 =>
          match mkdirs s6 modelsDir with
          | .error e => (.error e, (mkTrace true).take 6)
          | .ok s7 =>
            match mkdirs s7 mntCache with
            | .error e => (.error e, (mkTrace true).take 7)
            | .ok s8 =>
              -- lines 86-87: chmod -R 777 (check=False); permission bits
              -- are not modelled, only the events are recorded
              -- line 91: os.makedirs(db_dir, exist_ok=True)
              match mkdirs s8 dbDir with
              | .error e => (.error e, (mkTrace true).take 10)
              | .ok s9 =>
                -- lines 92-93: rm -rf dev.db and dev.db-journal
                -- line 96: if not os.path.exists(f"{db_dir}/dev.db")
                if ((rmRf (rmRf s9 dbLocal) dbJournal) dbVol).isSome then
                  -- lines 107-109: ln -sf (check=True)
                  match lnSf (rmRf (rmRf s9 dbLocal) dbJournal) dbVol dbLocal with
                  | .error e => (.error e, (mkTrace true).take 13)
                  | .ok sF => (.ok sF, mkTrace true)
                else
                  -- lines 97-104: npx prisma db push; cp into the volume
                  match lnSf (cpFile (runPrisma pr (rmRf (rmRf s9 dbLocal) dbJournal))
                      dbLocal dbVol) dbVol dbLocal with
                  | .error e => (.error e, (mkTrace false).take 15)
                  | .ok sF => (.ok sF, mkTrace false)

/-- All paths whose entries the four `os.makedirs` calls of lines 80-83 and
the one of line 91 may create. -/
def allMk : List Path :=
  prefixesOf datasetsDir ++ prefixesOf jobsDir ++ prefixesOf modelsDir ++
  prefixesOf mntCache ++ prefixesOf dbDir

/-- The final filesystem a successful reconciliation run produces, as a
function of the starting state `s` and the prisma outcome `pr`, looked up
at `q` (proved equal to the run's result in `uiServer_ok_lookup`). -/
def reconciledFS (pr : Option (List Nat)) (s : FS) (q : Path) : Option Node :=
  if q = dbLocal then some (.symlink dbVol)
  else if q = outputLink then some (.symlink mntOutput)
  else if q = cacheLink then some (.symlink mntCache)
  else if q = dbVol then (if (s dbVol).isSome then s dbVol else Option.map Node.file pr)
  else if q ∈ allMk then some .dir
  else if isUnder outputLink q || isUnder cacheLink q ||
          isUnder dbLocal q || isUnder dbJournal q then none
  else s q

/-! Basic lemmas about the filesystem operations. -/

theorem setEntry_self (s : FS) (p : Path) (n : Option Node) : setEntry s p n p = n := by
  simp [setEntry]

theorem setEntry_ne (s : FS) (p : Path) (n : Option Node) {q : Path} (h : q ≠ p) :
    setEntry s p n q = s q := by
  simp [setEntry, h]

theorem isUnder_refl (p : Path) : isUnder p p = true := by
  simp [isUnder, List.isPrefixOf_iff_prefix]

theorem isUnder_iff {t q : Path} : isUnder t q = true ↔ t <+: q := by
  simp [isUnder, List.isPrefixOf_iff_prefix]

theorem rmRf_under (s : FS) {p q : Path} (h : isUnder p q = true) : rmRf s p q = none := by
  simp [rmRf, h]

theorem rmRf_not (s : FS) {p q : Path} (h : isUnder p q = false) : rmRf s p q = s q := by
  simp [rmRf, h]

/-- Two paths that are prefixes of a common path are comparable; so a path
under `a` cannot be under `b` when neither of `a`, `b` is under the other. -/
theorem under_disjoint {a b q : Path} (hq : isUnder a q = true)
    (hab : isUnder a b = false) (hba : isUnder b a = false) : isUnder b q = false := by
  by_contra h
  have hbq : isUnder b q = true := by
    cases hcase : isUnder b q with
    | false => exact absurd hcase h
    | true => rfl
  rcases List.prefix_or_prefix_of_prefix (isUnder_iff.mp hq) (isUnder_iff.mp hbq) with hc | hc
  · rw [isUnder_iff.mpr hc] at hab
    cases hab
  · rw [isUnder_iff.mpr hc] at hba
    cases hba

/-- A path strictly inside the subtree of `a` is distinct from any path `b`
that is not in that subtree. -/
theorem ne_of_under {a b q : Path} (hq : isUnder a q = true)
    (hb : isUnder a b = false) : q ≠ b := by
  intro h
  subst h
  rw [hq] at hb
  cases hb

theorem lnSf_ok {s s' : FS} {tgt lnk : Path} (h : lnSf s tgt lnk = .ok s') :
    isDirAt s (parent lnk) = true ∧ isDirAt s lnk = false ∧
      s' = setEntry s lnk (some (.symlink tgt)) := by
  unfold lnSf at h
  by_cases h1 : isDirAt s (parent lnk) = true
  · rw [if_pos h1] at h
    by_cases h2 : isDirAt s lnk = true
    · rw [if_pos h2] at h
      cases h
    · rw [if_neg h2] at h
      refine ⟨h1, ?_, ?_⟩
      · cases hc : isDirAt s lnk with
        | false => rfl
        | true => exact absurd hc h2
      · cases h
        rfl
  · rw [if_neg h1] at h
    cases h

theorem lnSf_ok_intro {s : FS} {tgt lnk : Path} (h1 : isDirAt s (parent lnk) = true)
    (h2 : isDirAt s lnk = false) :
    lnSf s tgt lnk = .ok (setEntry s lnk (some (.symlink tgt))) := by
  unfold lnSf
  rw [if_pos h1, if_neg (by simp [h2])]

theorem cpFile_ne {s : FS} {src dst q : Path} (h : q ≠ dst) : cpFile s src dst q = s q := by
  unfold cpFile
  match hs : s src with
  | some (.file d) => exact setEntry_ne _ _ _ h
  | some .dir => rfl
  | some (.symlink t) => rfl
  | none => rfl

theorem runPrisma_ne {pr : Option (List Nat)} {s : FS} {q : Path} (h : q ≠ dbLocal) :
    runPrisma pr s q = s q := by
  unfold runPrisma
  match pr with
  | some d => exact setEntry_ne _ _ _ h
  | none => rfl

/-! Lemmas about `mkdirs` (a `foldlM` of `ensureDir` over the prefixes). -/

theorem foldl_ensure_lookup :
    ∀ (l : List Path) (s s' : FS), l.foldlM ensureDir s = .ok s' →
      ∀ q, s' q = if q ∈ l then some Node.dir else s q := by
  intro l
  induction l with
  | nil =>
    intro s s' h q
    simp only [List.foldlM_nil] at h
    cases h
    simp
  | cons a t ih =>
    intro s s' h q
    simp only [List.foldlM_cons] at h
    cases ha : ensureDir s a with
    | error e => rw [ha] at h; cases h
    | ok s1 =>
      rw [ha] at h
      have hstep : ∀ r, s1 r = if r = a then some Node.dir else s r := by
        intro r
        unfold ensureDir at ha
        match hsa : s a with
        | none =>
          rw [hsa] at ha
          cases ha
          by_cases hr : r = a
          · subst hr; rw [if_pos rfl, setEntry_self]
          · rw [if_neg hr, setEntry_ne _ _ _ hr]
        | some .dir =>
          rw [hsa] at ha
          cases ha
          by_cases hr : r = a
          · subst hr; rw [if_pos rfl, hsa]
          · rw [if_neg hr]
        | some (.file d) => rw [hsa] at ha; cases ha
        | some (.symlink tg) => rw [hsa] at ha; cases ha
      have hrest := ih s1 s' h q
      by_cases hq : q ∈ a :: t
      · rw [if_pos hq]
        rcases List.mem_cons.mp hq with hqa | hqt
        · subst hqa
          by_cases hqt : q ∈ t
          · rw [hrest, if_pos hqt]
          · rw [hrest, if_neg hqt, hstep, if_pos rfl]
        · rw [hrest, if_pos hqt]
      · have hqa : q ≠ a := fun hc => hq (by rw [hc]; exact List.mem_cons_self a t)
        have hqt : q ∉ t := fun hc => hq (List.mem_cons_of_mem a hc)
        rw [if_neg hq, hrest, if_neg hqt, hstep, if_neg hqa]

theorem foldl_ensure_ok :
    ∀ (l : List Path) (s : FS), (∀ q ∈ l, s q = none ∨ s q = some Node.dir) →
      ∃ s', l.foldlM ensureDir s = .ok s' := by
  intro l
  induction l with
  | nil => intro s _; exact ⟨s, rfl⟩
  | cons a t ih =>
    intro s hl
    have ha : s a = none ∨ s a = some Node.dir := hl a (List.mem_cons_self a t)
    have hstep : ∃ s1, ensureDir s a = .ok s1 ∧
        ∀ r, s1 r = if r = a then some Node.dir else s r := by
      unfold ensureDir
      rcases ha with ha | ha
      · rw [ha]
        refine ⟨setEntry s a (some .dir), rfl, ?_⟩
        intro r
        by_cases hr : r = a
        · subst hr; rw [if_pos rfl, setEntry_self]
        · rw [if_neg hr, setEntry_ne _ _ _ hr]
      · rw [ha]
        refine ⟨s, rfl, ?_⟩
        intro r
        by_cases hr : r = a
        · subst hr; rw [if_pos rfl, ha]
        · rw [if_neg hr]
    rcases hstep with ⟨s1, hs1, hlook⟩
    have ht : ∀ q ∈ t, s1 q = none ∨ s1 q = some Node.dir := by
      intro q hq
      rw [hlook]
      by_cases hqa : q = a
      · rw [if_pos hqa]; right; rfl
      · rw [if_neg hqa]; exact hl q (List.mem_cons_of_mem a hq)
    rcases ih s1 ht with ⟨s', hs'⟩
    refine ⟨s', ?_⟩
    simp only [List.foldlM_cons, hs1]
    exact hs'

theorem foldl_ensure_noop :
    ∀ (l : List Path) (s : FS), (∀ q ∈ l, s q = some Node.dir) →
      l.foldlM ensureDir s = .ok s := by
  intro l
  induction l with
  | nil => intro s _; rfl
  | cons a t ih =>
    intro s hl
    have ha : ensureDir s a = .ok s := by
      unfold ensureDir
      rw [hl a (List.mem_cons_self a t)]
    simp only [List.foldlM_cons, ha]
    exact ih s (fun q hq => hl q (List.mem_cons_of_mem a hq))

theorem mkdirs_ok_lookup {s s' : FS} {p : Path} (h : mkdirs s p = .ok s') (q : Path) :
    s' q = if q ∈ prefixesOf p then some Node.dir else s q :=
  foldl_ensure_lookup _ _ _ h q

theorem mkdirs_ok_of {s : FS} {p : Path}
    (h : ∀ q ∈ prefixesOf p, s q = none ∨ s q = some Node.dir) :
    ∃ s', mkdirs s p = .ok s' :=
  foldl_ensure_ok _ _ h

theorem mkdirs_noop {s : FS} {p : Path} (h : ∀ q ∈ prefixesOf p, s q = some Node.dir) :
    mkdirs s p = .ok s :=
  foldl_ensure_noop _ _ h

theorem isDirAt_iff {s : FS} {p : Path} : isDirAt s p = true ↔ s p = some Node.dir := by
  unfold isDirAt
  match h : s p with
  | none => simp
  | some .dir => simp
  | some (.file d) => simp
  | some (.symlink t) => simp

theorem mkdirs_frame {s s' : FS} {p : Path} (h : mkdirs s p = .ok s') {q : Path}
    (hq : q ∉ prefixesOf p) : s' q = s q := by
  rw [mkdirs_ok_lookup h, if_neg hq]

theorem mkdirs_dir_of_mem {s s' : FS} {p : Path} (h : mkdirs s p = .ok s') {q : Path}
    (hq : q ∈ prefixesOf p) : s' q = some Node.dir := by
  rw [mkdirs_ok_lookup h, if_pos hq]

theorem mkdirs_dir_mono {s s' : FS} {p : Path} (h : mkdirs s p = .ok s') (q : Path)
    (hq : s q = some Node.dir) : s' q = some Node.dir := by
  rw [mkdirs_ok_lookup h]
  by_cases hm : q ∈ prefixesOf p
  · rw [if_pos hm]
  · rw [if_neg hm, hq]

theorem not_mem_of_under {a q : Path} {l : List Path} (hq : isUnder a q = true)
    (hl : ∀ m ∈ l, isUnder a m = false) : q ∉ l := by
  intro hm
  have h2 := hl q hm
  rw [hq] at h2
  cases h2

/-- The filesystem state after lines 74-91 of the source (both volume links
made and all fixed directories ensured), looked up at `q`. -/
def preFS (s : FS) (q : Path) : Option Node :=
  if q = outputLink then some (.symlink mntOutput)
  else if q = cacheLink then some (.symlink mntCache)
  else if q ∈ allMk then some Node.dir
  else if isUnder outputLink q || isUnder cacheLink q then none
  else s q

theorem pre_lookup {s s3 s4 s5 s6 s7 s8 s9 : FS}
    (hln1 : lnSf (rmRf (rmRf s outputLink) cacheLink) mntOutput outputLink = .ok s3)
    (hln2 : lnSf s3 mntCache cacheLink = .ok s4)
    (hmk1 : mkdirs s4 datasetsDir = .ok s5)
    (hmk2 : mkdirs s5 jobsDir = .ok s6)
    (hmk3 : mkdirs s6 modelsDir = .ok s7)
    (hmk4 : mkdirs s7 mntCache = .ok s8)
    (hmk5 : mkdirs s8 dbDir = .ok s9) :
    (∀ q, s9 q = preFS s q) ∧ s ["root"] = some Node.dir ∧
      s ["root", "ai-toolkit"] = some Node.dir := by
  obtain ⟨hd1, -, hs3⟩ := lnSf_ok hln1
  obtain ⟨hd2, -, hs4⟩ := lnSf_ok hln2
  have hait : s ["root", "ai-toolkit"] = some Node.dir := by
    have h1 := isDirAt_iff.mp hd1
    rw [show parent outputLink = ["root", "ai-toolkit"] from rfl] at h1
    rw [rmRf_not _ (by decide), rmRf_not _ (by decide)] at h1
    exact h1
  have hroot : s ["root"] = some Node.dir := by
    have h1 := isDirAt_iff.mp hd2
    rw [show parent cacheLink = ["root"] from rfl] at h1
    rw [hs3, setEntry_ne _ _ _ (by decide), rmRf_not _ (by decide),
      rmRf_not _ (by decide)] at h1
    exact h1
  refine ⟨?_, hroot, hait⟩
  have h4 : ∀ r, s4 r = if r = cacheLink then some (.symlink mntCache)
      else if r = outputLink then some (.symlink mntOutput)
      else if isUnder outputLink r = true then none
      else if isUnder cacheLink r = true then none else s r := by
    intro r
    rw [hs4, hs3]
    by_cases h1 : r = cacheLink
    · subst h1
      rw [setEntry_self, if_pos rfl]
    · rw [setEntry_ne _ _ _ h1, if_neg h1]
      by_cases h2 : r = outputLink
      · subst h2
        rw [setEntry_self, if_pos rfl]
      · rw [setEntry_ne _ _ _ h2, if_neg h2]
        by_cases h3 : isUnder outputLink r = true
        · rw [if_pos h3, rmRf_not _ (under_disjoint h3 (by decide) (by decide)),
            rmRf_under _ h3]
        · rw [Bool.not_eq_true] at h3
          rw [if_neg (by simp [h3])]
          by_cases hc : isUnder cacheLink r = true
          · rw [if_pos hc, rmRf_under _ hc]
          · rw [Bool.not_eq_true] at hc
            rw [if_neg (by simp [hc]), rmRf_not _ hc, rmRf_not _ h3]
  intro q
  by_cases hq1 : q = outputLink
  · subst hq1
    unfold preFS
    rw [if_pos rfl, mkdirs_frame hmk5 (by decide), mkdirs_frame hmk4 (by decide),
      mkdirs_frame hmk3 (by decide), mkdirs_frame hmk2 (by decide),
      mkdirs_frame hmk1 (by decide), h4, if_neg (by decide), if_pos rfl]
  · by_cases hq2 : q = cacheLink
    · subst hq2
      unfold preFS
      rw [if_neg (by decide), if_pos rfl, mkdirs_frame hmk5 (by decide),
        mkdirs_frame hmk4 (by decide), mkdirs_frame hmk3 (by decide),
        mkdirs_frame hmk2 (by decide), mkdirs_frame hmk1 (by decide), h4, if_pos rfl]
    · by_cases hq3 : q ∈ allMk
      · unfold preFS
        rw [if_neg hq1, if_neg hq2, if_pos hq3]
        simp only [allMk, List.mem_append] at hq3
        rcases hq3 with ((((h | h) | h) | h) | h)
        · exact mkdirs_dir_mono hmk5 _ (mkdirs_dir_mono hmk4 _ (mkdirs_dir_mono hmk3 _
            (mkdirs_dir_mono hmk2 _ (mkdirs_dir_of_mem hmk1 h))))
        · exact mkdirs_dir_mono hmk5 _ (mkdirs_dir_mono hmk4 _ (mkdirs_dir_mono hmk3 _
            (mkdirs_dir_of_mem hmk2 h)))
        · exact mkdirs_dir_mono hmk5 _ (mkdirs_dir_mono hmk4 _ (mkdirs_dir_of_mem hmk3 h))
        · exact mkdirs_dir_mono hmk5 _ (mkdirs_dir_of_mem hmk4 h)
        · exact mkdirs_dir_of_mem hmk5 h
      · by_cases hu1 : isUnder outputLink q = true
        · unfold preFS
          rw [if_neg hq1, if_neg hq2, if_neg hq3, if_pos (by simp [hu1])]
          rw [mkdirs_frame hmk5 (not_mem_of_under hu1 (by decide)),
            mkdirs_frame hmk4 (not_mem_of_under hu1 (by decide)),
            mkdirs_frame hmk3 (not_mem_of_under hu1 (by decide)),
            mkdirs_frame hmk2 (not_mem_of_under hu1 (by decide)),
            mkdirs_frame hmk1 (not_mem_of_under hu1 (by decide)),
            h4, if_neg hq2, if_neg hq1, if_pos hu1]
        · rw [Bool.not_eq_true] at hu1
          by_cases hu2 : isUnder cacheLink q = true
          · unfold preFS
            rw [if_neg hq1, if_neg hq2, if_neg hq3, if_pos (by simp [hu2])]
            rw [mkdirs_frame hmk5 (not_mem_of_under hu2 (by decide)),
              mkdirs_frame hmk4 (not_mem_of_under hu2 (by decide)),
              mkdirs_frame hmk3 (not_mem_of_under hu2 (by decide)),
              mkdirs_frame hmk2 (not_mem_of_under hu2 (by decide)),
              mkdirs_frame hmk1 (not_mem_of_under hu2 (by decide)),
              h4, if_neg hq2, if_neg hq1, if_neg (by simp [hu1]), if_pos hu2]
          · rw [Bool.not_eq_true] at hu2
            unfold preFS
            rw [if_neg hq1, if_neg hq2, if_neg hq3, if_neg (by simp [hu1, hu2])]
            simp only [allMk, List.mem_append, not_or] at hq3
            obtain ⟨⟨⟨⟨hp1, hp2⟩, hp3⟩, hp4⟩, hp5⟩ := hq3
            rw [mkdirs_frame hmk5 hp5, mkdirs_frame hmk4 hp4, mkdirs_frame hmk3 hp3,
              mkdirs_frame hmk2 hp2, mkdirs_frame hmk1 hp1, h4, if_neg hq2, if_neg hq1,
              if_neg (by simp [hu1]), if_neg (by simp [hu2])]

theorem final_lookup {pr : Option (List Nat)} {s s9 sB : FS} {dbv : Option Node}
    (h9 : ∀ q, s9 q = preFS s q)
    (hdbv : dbv = (if (s dbVol).isSome then s dbVol else Option.map Node.file pr))
    (hBv : sB dbVol = dbv)
    (hB : ∀ q, q ≠ dbLocal → q ≠ dbVol →
      sB q = if isUnder dbJournal q = true then none
        else if isUnder dbLocal q = true then none else s9 q) :
    ∀ q, setEntry sB dbLocal (some (.symlink dbVol)) q = reconciledFS pr s q := by
  intro q
  by_cases hqd : q = dbLocal
  · subst hqd
    rw [setEntry_self]
    unfold reconciledFS
    rw [if_pos rfl]
  · rw [setEntry_ne _ _ _ hqd]
    unfold reconciledFS
    rw [if_neg hqd]
    by_cases hqv : q = dbVol
    · subst hqv
      rw [if_neg (by decide), if_neg (by decide), if_pos rfl, hBv, hdbv]
    · rw [hB q hqd hqv]
      by_cases huj : isUnder dbJournal q = true
      · rw [if_pos huj, if_neg (ne_of_under huj (by decide)),
          if_neg (ne_of_under huj (by decide)), if_neg hqv,
          if_neg (not_mem_of_under huj (by decide)), if_pos (by simp [huj])]
      · rw [Bool.not_eq_true] at huj
        rw [if_neg (by simp [huj])]
        by_cases hud : isUnder dbLocal q = true
        · rw [if_pos hud, if_neg (ne_of_under hud (by decide)),
            if_neg (ne_of_under hud (by decide)), if_neg hqv,
            if_neg (not_mem_of_under hud (by decide)), if_pos (by simp [hud])]
        · rw [Bool.not_eq_true] at hud
          rw [if_neg (by simp [hud]), h9]
          unfold preFS
          by_cases hqo : q = outputLink
          · subst hqo
            rw [if_pos rfl, if_pos rfl]
          · rw [if_neg hqo, if_neg hqo]
            by_cases hqc : q = cacheLink
            · subst hqc
              rw [if_pos rfl, if_pos rfl]
            · rw [if_neg hqc, if_neg hqc, if_neg hqv]
              by_cases hqm : q ∈ allMk
              · rw [if_pos hqm, if_pos hqm]
              · rw [if_neg hqm, if_neg hqm]
                by_cases huo : isUnder outputLink q = true
                · rw [if_pos (by simp [huo]), if_pos (by simp [huo])]
                · rw [Bool.not_eq_true] at huo
                  by_cases huc : isUnder cacheLink q = true
                  · rw [if_pos (by simp [huc]), if_pos (by simp [huc])]
                  · rw [Bool.not_eq_true] at huc
                    rw [if_neg (by simp [huo, huc]),
                      if_neg (by simp [huo, huc, hud, huj])]

/-- Master characterization of a successful boot: the final state is
`reconciledFS pr s`, the starting state had the three parent directories the
`ln` calls require, and the trace is determined by whether the durable
database file was present initially. -/
theorem uiServer_ok_main {pr : Option (List Nat)} {s s' : FS} {tr : List Ev}
    (h : uiServer pr s = (.ok s', tr)) :
    (∀ q, s' q = reconciledFS pr s q) ∧
      s ["root"] = some Node.dir ∧ s ["root", "ai-toolkit"] = some Node.dir ∧
      s prismaDir = some Node.dir ∧ tr = mkTrace (s dbVol).isSome := by
  unfold uiServer at h
  split at h
  · simp at h
  rename_i s3 hln1
  split at h
  · simp at h
  rename_i s4 hln2
  split at h
  · simp at h
  rename_i s5 hmk1
  split at h
  · simp at h
  rename_i s6 hmk2
  split at h
  · simp at h
  rename_i s7 hmk3
  split at h
  · simp at h
  rename_i s8 hmk4
  split at h
  · simp at h
  rename_i s9 hmk5
  obtain ⟨h9, hroot, hait⟩ := pre_lookup hln1 hln2 hmk1 hmk2 hmk3 hmk4 hmk5
  have hs11v : (rmRf (rmRf s9 dbLocal) dbJournal) dbVol = s dbVol := by
    rw [rmRf_not _ (by decide), rmRf_not _ (by decide), h9]
    unfold preFS
    rw [if_neg (by decide), if_neg (by decide), if_neg (by decide), if_neg (by decide)]
  split at h
  · -- durable database file present: the init sub-step is skipped
    rename_i hif
    rw [hs11v] at hif
    split at h
    · simp at h
    rename_i sF hln3
    rw [Prod.mk.injEq] at h
    obtain ⟨hfs, htr⟩ := h
    rw [Except.ok.injEq] at hfs
    subst hfs
    subst htr
    obtain ⟨hdp, -, hsF⟩ := lnSf_ok hln3
    have hprisma : s prismaDir = some Node.dir := by
      have h1 := isDirAt_iff.mp hdp
      rw [show parent dbLocal = prismaDir from rfl] at h1
      rw [rmRf_not _ (by decide), rmRf_not _ (by decide), h9] at h1
      unfold preFS at h1
      rw [if_neg (by decide), if_neg (by decide), if_neg (by decide),
        if_neg (by decide)] at h1
      exact h1
    refine ⟨?_, hroot, hait, hprisma, by rw [hif]⟩
    intro q
    rw [hsF]
    refine final_lookup h9 (by rw [if_pos hif]) hs11v ?_ q
    intro r _ _
    rfl
  · -- durable database file absent: prisma init and cp run first
    rename_i hif
    rw [Bool.not_eq_true, hs11v] at hif
    split at h
    · simp at h
    rename_i sF hln3
    rw [Prod.mk.injEq] at h
    obtain ⟨hfs, htr⟩ := h
    rw [Except.ok.injEq] at hfs
    subst hfs
    subst htr
    obtain ⟨hdp, -, hsF⟩ := lnSf_ok hln3
    have hs11loc : (rmRf (rmRf s9 dbLocal) dbJournal) dbLocal = none := by
      rw [rmRf_not _ (by decide), rmRf_under _ (by decide)]
    have hsvnone : s dbVol = none := by
      cases hsv : s dbVol with
      | none => rfl
      | some n => rw [hsv] at hif; simp at hif
    have hBv : (cpFile (runPrisma pr (rmRf (rmRf s9 dbLocal) dbJournal)) dbLocal dbVol)
        dbVol = Option.map Node.file pr := by
      cases pr with
      | some d => simp [runPrisma, cpFile, setEntry_self]
      | none => simp [runPrisma, cpFile, hs11loc, hs11v, hsvnone]
    have hprisma : s prismaDir = some Node.dir := by
      have h1 := isDirAt_iff.mp hdp
      rw [show parent dbLocal = prismaDir from rfl] at h1
      rw [cpFile_ne (by decide), runPrisma_ne (by decide), rmRf_not _ (by decide),
        rmRf_not _ (by decide), h9] at h1
      unfold preFS at h1
      rw [if_neg (by decide), if_neg (by decide), if_neg (by decide),
        if_neg (by decide)] at h1
      exact h1
    refine ⟨?_, hroot, hait, hprisma, by rw [hif]⟩
    intro q
    rw [hsF]
    refine final_lookup h9 (by rw [if_neg (by simp [hif])]) hBv ?_ q
    intro r hrd hrv
    rw [cpFile_ne hrv, runPrisma_ne hrd]
    rfl

theorem isDirAt_ne_dir {s : FS} {p : Path} (h : s p ≠ some Node.dir) : isDirAt s p = false := by
  unfold isDirAt
  match hs : s p with
  | none => rfl
  | some .dir => exact absurd hs h
  | some (.file d) => rfl
  | some (.symlink t) => rfl

theorem reconciled_allMk (pr : Option (List Nat)) (s : FS) {m : Path} (hm : m ∈ allMk) :
    reconciledFS pr s m = some Node.dir := by
  have h1 : m ≠ dbLocal := fun h => by rw [h] at hm; exact absurd hm (by decide)
  have h2 : m ≠ outputLink := fun h => by rw [h] at hm; exact absurd hm (by decide)
  have h3 : m ≠ cacheLink := fun h => by rw [h] at hm; exact absurd hm (by decide)
  have h4 : m ≠ dbVol := fun h => by rw [h] at hm; exact absurd hm (by decide)
  unfold reconciledFS
  rw [if_neg h1, if_neg h2, if_neg h3, if_neg h4, if_pos hm]

/-- No path the `os.makedirs` calls create lies in any of the subtrees the
reconciler removes or links, nor coincides with the special file paths. -/
theorem allMk_free : ∀ m ∈ allMk, isUnder outputLink m = false ∧
    isUnder cacheLink m = false ∧ isUnder dbLocal m = false ∧
    isUnder dbJournal m = false ∧ m ≠ outputLink ∧ m ≠ cacheLink ∧
    m ≠ dbLocal ∧ m ≠ dbVol := by decide

theorem dirOk_mkdirs {s s' : FS} {p : Path} (h : mkdirs s p = .ok s')
    (hd : ∀ m ∈ allMk, s m = none ∨ s m = some Node.dir) :
    ∀ m ∈ allMk, s' m = none ∨ s' m = some Node.dir := by
  intro m hm
  rw [mkdirs_ok_lookup h]
  by_cases hmem : m ∈ prefixesOf p
  · rw [if_pos hmem]
    exact Or.inr rfl
  · rw [if_neg hmem]
    exact hd m hm

/-- If the starting state has the three parent directories the `ln -sf`
calls require, and nothing but (possibly) directories at the paths the
`os.makedirs` calls ensure, then the boot completes without error --- for
every outcome of the external database-initialization command. -/
theorem uiServer_runs (pr : Option (List Nat)) {t : FS}
    (hroot : t ["root"] = some Node.dir)
    (hait : t ["root", "ai-toolkit"] = some Node.dir)
    (hpris : t prismaDir = some Node.dir)
    (hmk : ∀ m ∈ allMk, t m = none ∨ t m = some Node.dir) :
    ∃ u tr, uiServer pr t = (.ok u, tr) := by
  have hE1 : lnSf (rmRf (rmRf t outputLink) cacheLink) mntOutput outputLink =
      .ok (setEntry (rmRf (rmRf t outputLink) cacheLink) outputLink
        (some (.symlink mntOutput))) := by
    refine lnSf_ok_intro (isDirAt_iff.mpr ?_) (isDirAt_ne_dir ?_)
    · rw [show parent outputLink = ["root", "ai-toolkit"] from rfl,
        rmRf_not _ (by decide), rmRf_not _ (by decide)]
      exact hait
    · rw [rmRf_not _ (by decide), rmRf_under _ (by decide)]
      simp
  have hE2 : lnSf (setEntry (rmRf (rmRf t outputLink) cacheLink) outputLink
      (some (.symlink mntOutput))) mntCache cacheLink =
      .ok (setEntry (setEntry (rmRf (rmRf t outputLink) cacheLink) outputLink
        (some (.symlink mntOutput))) cacheLink (some (.symlink mntCache))) := by
    refine lnSf_ok_intro (isDirAt_iff.mpr ?_) (isDirAt_ne_dir ?_)
    · rw [show parent cacheLink = ["root"] from rfl, setEntry_ne _ _ _ (by decide),
        rmRf_not _ (by decide), rmRf_not _ (by decide)]
      exact hroot
    · rw [setEntry_ne _ _ _ (by decide), rmRf_under _ (by decide)]
      simp
  have hd2 : ∀ m ∈ allMk, (setEntry (setEntry (rmRf (rmRf t outputLink) cacheLink)
      outputLink (some (.symlink mntOutput))) cacheLink (some (.symlink mntCache))) m =
      none ∨ (setEntry (setEntry (rmRf (rmRf t outputLink) cacheLink)
      outputLink (some (.symlink mntOutput))) cacheLink (some (.symlink mntCache))) m =
      some Node.dir := by
    intro m hm
    obtain ⟨hu1, hu2, -, -, hn1, hn2, -, -⟩ := allMk_free m hm
    rw [setEntry_ne _ _ _ hn2, setEntry_ne _ _ _ hn1, rmRf_not _ hu2, rmRf_not _ hu1]
    exact hmk m hm
  obtain ⟨s5, hq1⟩ := mkdirs_ok_of (p := datasetsDir)
    (fun q hq => hd2 q ((by decide : ∀ m ∈ prefixesOf datasetsDir, m ∈ allMk) q hq))
  have hd5 := dirOk_mkdirs hq1 hd2
  obtain ⟨s6, hq2⟩ := mkdirs_ok_of (p := jobsDir)
    (fun q hq => hd5 q ((by decide : ∀ m ∈ prefixesOf jobsDir, m ∈ allMk) q hq))
  have hd6 := dirOk_mkdirs hq2 hd5
  obtain ⟨s7, hq3⟩ := mkdirs_ok_of (p := modelsDir)
    (fun q hq => hd6 q ((by decide : ∀ m ∈ prefixesOf modelsDir, m ∈ allMk) q hq))
  have hd7 := dirOk_mkdirs hq3 hd6
  obtain ⟨s8, hq4⟩ := mkdirs_ok_of (p := mntCache)
    (fun q hq => hd7 q ((by decide : ∀ m ∈ prefixesOf mntCache, m ∈ allMk) q hq))
  have hd8 := dirOk_mkdirs hq4 hd7
  obtain ⟨s9, hq5⟩ := mkdirs_ok_of (p := dbDir)
    (fun q hq => hd8 q ((by decide : ∀ m ∈ prefixesOf dbDir, m ∈ allMk) q hq))
  have hpris9 : s9 prismaDir = some Node.dir := by
    rw [mkdirs_frame hq5 (by decide), mkdirs_frame hq4 (by decide),
      mkdirs_frame hq3 (by decide), mkdirs_frame hq2 (by decide),
      mkdirs_frame hq1 (by decide), setEntry_ne _ _ _ (by decide),
      setEntry_ne _ _ _ (by decide), rmRf_not _ (by decide), rmRf_not _ (by decide)]
    exact hpris
  have hloc : (rmRf (rmRf s9 dbLocal) dbJournal) dbLocal = none := by
    rw [rmRf_not _ (by decide), rmRf_under _ (by decide)]
  by_cases hcp : ((rmRf (rmRf s9 dbLocal) dbJournal) dbVol).isSome = true
  · have hE3 : lnSf (rmRf (rmRf s9 dbLocal) dbJournal) dbVol dbLocal =
        .ok (setEntry (rmRf (rmRf s9 dbLocal) dbJournal) dbLocal
          (some (.symlink dbVol))) := by
      refine lnSf_ok_intro (isDirAt_iff.mpr ?_) (isDirAt_ne_dir ?_)
      · rw [show parent dbLocal = prismaDir from rfl, rmRf_not _ (by decide),
          rmRf_not _ (by decide)]
        exact hpris9
      · rw [hloc]
        simp
    refine ⟨setEntry (rmRf (rmRf s9 dbLocal) dbJournal) dbLocal
      (some (.symlink dbVol)), mkTrace true, ?_⟩
    unfold uiServer
    simp only [hE1, hE2, hq1, hq2, hq3, hq4, hq5, if_pos hcp, hE3]
  · rw [Bool.not_eq_true] at hcp
    have hE3 : lnSf (cpFile (runPrisma pr (rmRf (rmRf s9 dbLocal) dbJournal))
        dbLocal dbVol) dbVol dbLocal =
        .ok (setEntry (cpFile (runPrisma pr (rmRf (rmRf s9 dbLocal) dbJournal))
          dbLocal dbVol) dbLocal (some (.symlink dbVol))) := by
      refine lnSf_ok_intro (isDirAt_iff.mpr ?_) (isDirAt_ne_dir ?_)
      · rw [show parent dbLocal = prismaDir from rfl, cpFile_ne (by decide),
          runPrisma_ne (by decide), rmRf_not _ (by decide), rmRf_not _ (by decide)]
        exact hpris9
      · rw [cpFile_ne (by decide)]
        cases pr with
        | some d => simp [runPrisma, setEntry_self]
        | none =>
          simp only [runPrisma]
          rw [hloc]
          simp
    refine ⟨setEntry (cpFile (runPrisma pr (rmRf (rmRf s9 dbLocal) dbJournal))
      dbLocal dbVol) dbLocal (some (.symlink dbVol)), mkTrace false, ?_⟩
    have hcpn : ¬ ((rmRf (rmRf s9 dbLocal) dbJournal) dbVol).isSome = true := by
      rw [hcp]
      exact Bool.false_ne_true
    unfold uiServer
    simp only [hE1, hE2, hq1, hq2, hq3, hq4, hq5, if_neg hcpn, hE3]

/-- A state that already is the result of a reconciliation run, and in which
the durable database file exists, is a fixed point of `reconciledFS`. -/
theorem reconciledFS_fixpoint {pr' pr : Option (List Nat)} {s t : FS}
    (hR : ∀ q, t q = reconciledFS pr s q) (hdb : (t dbVol).isSome = true) :
    ∀ q, reconciledFS pr' t q = t q := by
  intro q
  by_cases hqd : q = dbLocal
  · subst hqd
    have h1 : reconciledFS pr' t dbLocal = some (.symlink dbVol) := by
      unfold reconciledFS
      rw [if_pos rfl]
    have h2 : reconciledFS pr s dbLocal = some (.symlink dbVol) := by
      unfold reconciledFS
      rw [if_pos rfl]
    rw [h1, hR, h2]
  · by_cases hqo : q = outputLink
    · subst hqo
      have h1 : reconciledFS pr' t outputLink = some (.symlink mntOutput) := by
        unfold reconciledFS
        rw [if_neg (by decide), if_pos rfl]
      have h2 : reconciledFS pr s outputLink = some (.symlink mntOutput) := by
        unfold reconciledFS
        rw [if_neg (by decide), if_pos rfl]
      rw [h1, hR, h2]
    · by_cases hqc : q = cacheLink
      · subst hqc
        have h1 : reconciledFS pr' t cacheLink = some (.symlink mntCache) := by
          unfold reconciledFS
          rw [if_neg (by decide), if_neg (by decide), if_pos rfl]
        have h2 : reconciledFS pr s cacheLink = some (.symlink mntCache) := by
          unfold reconciledFS
          rw [if_neg (by decide), if_neg (by decide), if_pos rfl]
        rw [h1, hR, h2]
      · by_cases hqv : q = dbVol
        · subst hqv
          have h1 : reconciledFS pr' t dbVol = t dbVol := by
            unfold reconciledFS
            rw [if_neg (by decide), if_neg (by decide), if_neg (by decide), if_pos rfl,
              if_pos hdb]
          rw [h1]
        · by_cases hqm : q ∈ allMk
          · rw [reconciled_allMk pr' t hqm, hR]
            exact (reconciled_allMk pr s hqm).symm
          · by_cases hun : (isUnder outputLink q || isUnder cacheLink q ||
                isUnder dbLocal q || isUnder dbJournal q) = true
            · have h1 : reconciledFS pr' t q = none := by
                unfold reconciledFS
                rw [if_neg hqd, if_neg hqo, if_neg hqc, if_neg hqv, if_neg hqm,
                  if_pos hun]
              have h2 : reconciledFS pr s q = none := by
                unfold reconciledFS
                rw [if_neg hqd, if_neg hqo, if_neg hqc, if_neg hqv, if_neg hqm,
                  if_pos hun]
              rw [h1, hR, h2]
            · have h1 : reconciledFS pr' t q = t q := by
                unfold reconciledFS
                rw [if_neg hqd, if_neg hqo, if_neg hqc, if_neg hqv, if_neg hqm,
                  if_neg hun]
              rw [h1]

/-- Running the boot procedure on the state a successful boot produced, when
the durable database file exists in that state, succeeds and changes
nothing: it returns exactly the same state. -/
theorem uiServer_idem_aux {pr' pr : Option (List Nat)} {s s' : FS} {tr : List Ev}
    (h : uiServer pr s = (.ok s', tr)) (hdb : (s' dbVol).isSome = true) :
    uiServer pr' s' = (.ok s', mkTrace true) := by
  obtain ⟨hR, hroot, hait, hpris, -⟩ := uiServer_ok_main h
  have hroot' : s' ["root"] = some Node.dir := by
    rw [hR]
    unfold reconciledFS
    rw [if_neg (by decide), if_neg (by decide), if_neg (by decide), if_neg (by decide),
      if_neg (by decide), if_neg (by decide)]
    exact hroot
  have hait' : s' ["root", "ai-toolkit"] = some Node.dir := by
    rw [hR]
    unfold reconciledFS
    rw [if_neg (by decide), if_neg (by decide), if_neg (by decide), if_neg (by decide),
      if_neg (by decide), if_neg (by decide)]
    exact hait
  have hpris' : s' prismaDir = some Node.dir := by
    rw [hR]
    unfold reconciledFS
    rw [if_neg (by decide), if_neg (by decide), if_neg (by decide), if_neg (by decide),
      if_neg (by decide), if_neg (by decide)]
    exact hpris
  have hmk' : ∀ m ∈ allMk, s' m = none ∨ s' m = some Node.dir := fun m hm =>
    Or.inr (by rw [hR]; exact reconciled_allMk pr s hm)
  obtain ⟨u, tru, hu⟩ := uiServer_runs pr' hroot' hait' hpris' hmk'
  obtain ⟨hRu, -, -, -, htr⟩ := uiServer_ok_main hu
  have hueq : u = s' := funext fun q => by
    rw [hRu q]
    exact reconciledFS_fixpoint hR hdb q
  subst hueq
  rw [hu, htr, hdb]

/-! The `download_files` helper (source lines 147-172) and the directory
setup helper (lines 179-213). -/

/-- Split a list of characters at `/`, accumulating the current (reversed)
component. -/
def splitChars : List Char → List Char → List String
  | [], acc => [String.mk acc.reverse]
  | c :: cs, acc =>
    if c = '/' then String.mk acc.reverse :: splitChars cs []
    else splitChars cs (c :: acc)

/-- Split a POSIX path string into its components (empty components, from
leading, trailing or doubled slashes, are dropped). -/
def splitPath (s : String) : List String :=
  (splitChars s.toList []).filter (fun c => c ≠ "")

/-- One step of kernel path resolution: "." is dropped, ".." removes the
last component (the parent of the root is the root). -/
def normStep (acc : List String) (c : String) : List String :=
  if c = "." then acc
  else if c = ".." then acc.dropLast
  else acc ++ [c]

/-- Resolve "." and ".." components, as the kernel does when the helper's
`Path(...)` is checked and copied (assuming no symlinks along the resolved
prefix, which holds for the volume mount paths). -/
def normalize (l : List String) : List String :=
  l.foldl normStep []

/-- The source path `Path(f"/mnt/output/{remote_path}")` of line 159, after
kernel resolution: the caller-supplied string is interpolated with no
sanitization. -/
def srcPathOf (remote : String) : Path :=
  normalize (splitPath ("/mnt/output/" ++ remote))

/-- The destination path `Path(local_path)` of line 160, after kernel
resolution. -/
def dstPathOf (localPath : String) : Path :=
  normalize (splitPath localPath)

/-- Errors of the helper: the `FileNotFoundError` of line 163, or a `mkdir`
failure.  Raised errors carry the filesystem as it is at raise time. -/
inductive DlErr where
  | notFound (p : String)
  | mkdirFailed (p : Path)
deriving DecidableEq

/-- `stripPre base q = some r` exactly when `q = base ++ r`. -/
def stripPre : Path → Path → Option Path
  | [], q => some q
  | _ :: _, [] => none
  | a :: t, b :: u => if a = b then stripPre t u else none

/-- `shutil.copytree(src, dst, dirs_exist_ok=True)` (line 167): every node
of the source subtree is copied to the corresponding path under `dst`;
entries under `dst` with no source counterpart are kept. -/
def copyTree (s : FS) (src dst : Path) : FS :=
  fun q =>
    match stripPre dst q with
    | some r =>
      match s (src ++ r) with
      | some n => some n
      | none => s q
    | none => s q

/-- `shutil.copy2(src, dst)` (line 171): copy a regular file, overwriting
`dst`, or copying to `dst/<basename>` when `dst` is an existing directory.
File metadata is not modelled. -/
def copy2 (s : FS) (src dst : Path) : FS :=
  match s src with
  | some (.file d) =>
    match s dst with
    | some .dir => setEntry s (dst ++ [src.getLastD ""]) (some (.file d))
    | _ => setEntry s dst (some (.file d))
  | _ => s

/-- `Path.mkdir(parents=True, exist_ok=True)` as used by the helper (lines
166, 170), raising with the pre-call filesystem on failure. -/
def mkdirsE (s : FS) (p : Path) : Except (DlErr × FS) FS :=
  match mkdirs s p with
  | .ok s1 => .ok s1
  | .error _ => .error (.mkdirFailed p, s)

/-- The `download_files` helper (source lines 147-172): copies
`/mnt/output/<remote_path>` to `local_path`, raising `FileNotFoundError`
when the source does not exist (lines 162-163); for a directory source it
creates the destination then copies recursively (lines 165-167), otherwise
it creates the destination's parent then copies the single file (lines
169-171).  A symlink entry at the source is handled like a file (`pathlib`
follows links; the reconciler creates none inside the volume). -/
def downloadFiles (s : FS) (remotePath localPath : String) : Except (DlErr × FS) FS :=
  match s (srcPathOf remotePath) with
  | none => .error (.notFound remotePath, s)
  | some .dir =>
    match mkdirsE s (dstPathOf localPath) with
    | .error e => .error e
    | .ok s1 => .ok (copyTree s1 (srcPathOf remotePath) (dstPathOf localPath))
  | some _ =>
    match mkdirsE s (parent (dstPathOf localPath)) with
    | .error e => .error e
    | .ok s1 => .ok (copy2 s1 (srcPathOf remotePath) (dstPathOf localPath))

/-- Modelled from the spec: the upload helper the specification describes
("copies a local path into the durable volume, creating parent directories,
distinguishing single-file vs. recursive-directory copy, failing with a
not-found error if the source is absent").  No such function exists in the
source file, whose only transfer helper is `download_files`; this
definition mirrors that helper with the copy direction reversed, for
comparison. -/
def uploadFilesSpec (s : FS) (localPath remotePath : String) : Except (DlErr × FS) FS :=
  match s (dstPathOf localPath) with
  | none => .error (.notFound localPath, s)
  | some .dir =>
    match mkdirsE s (srcPathOf remotePath) with
    | .error e => .error e
    | .ok s1 => .ok (copyTree s1 (dstPathOf localPath) (srcPathOf remotePath))
  | some _ =>
    match mkdirsE s (parent (srcPathOf remotePath)) with
    | .error e => .error e
    | .ok s1 => .ok (copy2 s1 (dstPathOf localPath) (srcPathOf remotePath))

/-- The `setup_directories` helper (source lines 179-213): ensure the four
fixed directories exist; `os.chmod` and the prints are not modelled. -/
def setupDirectories (s : FS) : Except Err FS :=
  match mkdirs s datasetsDir with
  | .error e => .error e
  | .ok s1 =>
    match mkdirs s1 jobsDir with
    | .error e => .error e
    | .ok s2 =>
      match mkdirs s2 modelsDir with
      | .error e => .error e
      | .ok s3 =>
        match mkdirs s3 mntCache with
        | .error e => .error e
        | .ok s4 => .ok s4

/-! Observers and concrete states used by the witnesses. -/

/-- The final filesystem of a boot result (the empty map if the boot
aborted). -/
def runFS (r : Except Err FS × List Ev) : FS :=
  match r.1 with
  | .ok u => u
  | .error _ => fun _ => none

/-- Look up a path in a helper's result (in the carried raise-time state if
it raised). -/
def resultAt (r : Except (DlErr × FS) FS) (p : Path) : Option Node :=
  match r with
  | .ok u => u p
  | .error e => e.2 p

/-- The filesystem a successful `mkdirs` produces (the input unchanged on
failure). -/
def mkdirsOut (s : FS) (p : Path) : FS :=
  match mkdirs s p with
  | .ok u => u
  | .error _ => s

/-- Database contents left at the local path by the image build (line 38 of
the source runs `npx prisma db push` at build time). -/
def imageDb : List Nat := [0]

/-- Database contents the runtime `npx prisma db push` produces. -/
def d0 : List Nat := [1]

/-- A typical cold-start state: the container skeleton present, the two
durable volumes freshly created and empty, and the local database file left
by the image build. -/
def fs0 : FS := fun p =>
  if p = ["root"] ∨ p = ["root", "ai-toolkit"] ∨ p = ["root", "ai-toolkit", "ui"] ∨
      p = prismaDir ∨ p = ["mnt"] ∨ p = mntOutput ∨ p = mntCache then some .dir
  else if p = dbLocal then some (.file imageDb)
  else none

/-- A cold-start state like `fs0` but with the durable database file
already present (with contents `[3]`). -/
def fsP : FS := fun p =>
  if p = dbVol then some (.file [3]) else fs0 p

/-- A broken container state: the durable volumes are mounted but `/root`
is missing entirely, so the first `ln -sf` fails. -/
def fsBad : FS := fun p =>
  if p = ["mnt"] ∨ p = mntOutput ∨ p = mntCache then some .dir else none

theorem foldl_ensure_inputs :
    ∀ (l : List Path) (s s' : FS), l.foldlM ensureDir s = .ok s' →
      ∀ q ∈ l, s q = none ∨ s q = some Node.dir := by
  intro l
  induction l with
  | nil => intro s s' _ q hq; cases hq
  | cons a t ih =>
    intro s s' h q hq
    simp only [List.foldlM_cons] at h
    cases ha : ensureDir s a with
    | error e => rw [ha] at h; cases h
    | ok s1 =>
      rw [ha] at h
      have hstep : s a = none ∨ s a = some Node.dir := by
        unfold ensureDir at ha
        match hsa : s a with
        | none => exact Or.inl rfl
        | some .dir => exact Or.inr rfl
        | some (.file d) => rw [hsa] at ha; cases ha
        | some (.symlink tg) => rw [hsa] at ha; cases ha
      have hlook : ∀ r, s1 r = if r = a then some Node.dir else s r := by
        intro r
        unfold ensureDir at ha
        match hsa : s a with
        | none =>
          rw [hsa] at ha
          cases ha
          by_cases hr : r = a
          · subst hr; rw [if_pos rfl, setEntry_self]
          · rw [if_neg hr, setEntry_ne _ _ _ hr]
        | some .dir =>
          rw [hsa] at ha
          cases ha
          by_cases hr : r = a
          · subst hr; rw [if_pos rfl, hsa]
          · rw [if_neg hr]
        | some (.file d) => rw [hsa] at ha; cases ha
        | some (.symlink tg) => rw [hsa] at ha; cases ha
      rcases List.mem_cons.mp hq with hqa | hqt
      · subst hqa; exact hstep
      · have := ih s1 s' h q hqt
        rw [hlook] at this
        by_cases hr : q = a
        · subst hr; exact hstep
        · rw [if_neg hr] at this; exact this

theorem mkdirs_ok_inputs {s s' : FS} {p : Path} (h : mkdirs s p = .ok s') :
    ∀ q ∈ prefixesOf p, s q = none ∨ s q = some Node.dir :=
  foldl_ensure_inputs _ _ _ h

/-- The state a first boot from `fs0` produces (with a successful external
database init producing contents `d0`). -/
def fs0run : FS := runFS (uiServer (some d0) fs0)

/-- The event trace of that boot. -/
def tr0 : List Ev := (uiServer (some d0) fs0).2

/-! The claims. -/

/-- C1: after one successful run of the workspace reconciler, each of the
three fixed local paths the external toolkit reads or writes --- the output
directory `/root/ai-toolkit/output`, the cache directory `/root/.cache`,
and the database file `/root/ai-toolkit/ui/prisma/dev.db` --- holds a
symbolic link whose target lies inside a durable volume (`/mnt/output` or
`/mnt/cache`), so writes through those paths land in durable storage. -/
theorem c1_links_resolve_into_durable_volumes {pr : Option (List Nat)} {s s' : FS}
    {tr : List Ev} (h : uiServer pr s = (.ok s', tr)) :
    (s' outputLink = some (.symlink mntOutput) ∧ isUnder mntOutput mntOutput = true) ∧
    (s' cacheLink = some (.symlink mntCache) ∧ isUnder mntCache mntCache = true) ∧
    (s' dbLocal = some (.symlink dbVol) ∧ isUnder mntOutput dbVol = true) := by
  obtain ⟨hR, -, -, -, -⟩ := uiServer_ok_main h
  refine ⟨⟨?_, by decide⟩, ⟨?_, by decide⟩, ⟨?_, by decide⟩⟩
  · rw [hR]
    unfold reconciledFS
    rw [if_neg (by decide), if_pos rfl]
  · rw [hR]
    unfold reconciledFS
    rw [if_neg (by decide), if_neg (by decide), if_pos rfl]
  · rw [hR]
    unfold reconciledFS
    rw [if_pos rfl]

theorem c1_witness :
    uiServer (some d0) fs0 = (.ok fs0run, tr0) ∧
    fs0run outputLink = some (.symlink mntOutput) ∧
    fs0run cacheLink = some (.symlink mntCache) ∧
    fs0run dbLocal = some (.symlink dbVol) := by
  have h : uiServer (some d0) fs0 = (.ok fs0run, tr0) := rfl
  obtain ⟨⟨h1, -⟩, ⟨h2, -⟩, ⟨h3, -⟩⟩ := c1_links_resolve_into_durable_volumes h
  exact ⟨h, h1, h2, h3⟩

/-- C2: when one of the three `ln -sf` commands (all run with `check=True`)
fails, the boot aborts with that error and the server process is never
launched. -/
theorem c2_link_failure_aborts {pr : Option (List Nat)} {s : FS} {tgt lnk : Path}
    {tr : List Ev} (h : uiServer pr s = (.error (.lnFailed tgt lnk), tr)) :
    Ev.launch ∉ tr := by
  unfold uiServer at h
  repeat' split at h
  all_goals
    first
    | (rw [Prod.mk.injEq] at h
       obtain ⟨-, htr⟩ := h
       rw [← htr]
       decide)
    | simp at h

theorem c2_witness :
    uiServer none fsBad = (.error (.lnFailed mntOutput outputLink),
      (mkTrace true).take 2) ∧
    Ev.launch ∉ (mkTrace true).take 2 := by
  have h : uiServer none fsBad = (.error (.lnFailed mntOutput outputLink),
      (mkTrace true).take 2) := rfl
  exact ⟨h, c2_link_failure_aborts h⟩

/-- C3: the reconciler is idempotent: a second run on the state a
successful run produced (with the external database init working) succeeds,
returns exactly the same filesystem state, and skips the database
initialization sub-step because the durable database file already exists. -/
theorem c3_reconciler_idempotent {d : List Nat} {s s' : FS} {tr : List Ev}
    (h : uiServer (some d) s = (.ok s', tr)) :
    uiServer (some d) s' = (.ok s', mkTrace true) ∧ Ev.dbInit ∉ mkTrace true := by
  refine ⟨?_, by decide⟩
  have hdb : (s' dbVol).isSome = true := by
    obtain ⟨hR, -, -, -, -⟩ := uiServer_ok_main h
    rw [hR]
    unfold reconciledFS
    rw [if_neg (by decide), if_neg (by decide), if_neg (by decide), if_pos rfl]
    by_cases hs : (s dbVol).isSome = true
    · rw [if_pos hs]
      exact hs
    · rw [if_neg hs]
      rfl
  exact uiServer_idem_aux h hdb

theorem c3_witness :
    uiServer (some d0) fs0 = (.ok fs0run, tr0) ∧
    uiServer (some d0) fs0run = (.ok fs0run, mkTrace true) := by
  have h : uiServer (some d0) fs0 = (.ok fs0run, tr0) := rfl
  exact ⟨h, (c3_reconciler_idempotent h).1⟩

/-- C4: when the durable database file is absent at the start of a
successful run (and the external init command works, producing contents
`d`), the run performs, in order: the two rm/ln pairs, the directory
creations, the database init, the copy into the durable volume, and only
then the database link --- and afterwards the database file exists in the
durable volume and the local path links to it. -/
theorem c4_first_run_initializes_database {d : List Nat} {s s' : FS} {tr : List Ev}
    (habs : s dbVol = none) (h : uiServer (some d) s = (.ok s', tr)) :
    tr = [Ev.rm outputLink, Ev.rm cacheLink,
      Ev.ln mntOutput outputLink, Ev.ln mntCache cacheLink,
      Ev.mkdirs datasetsDir, Ev.mkdirs jobsDir, Ev.mkdirs modelsDir,
      Ev.mkdirs mntCache, Ev.chmod mntOutput, Ev.chmod mntCache,
      Ev.mkdirs dbDir, Ev.rm dbLocal, Ev.rm dbJournal,
      Ev.dbInit, Ev.cp dbLocal dbVol, Ev.ln dbVol dbLocal, Ev.launch] ∧
    s' dbVol = some (.file d) ∧ s' dbLocal = some (.symlink dbVol) := by
  obtain ⟨hR, -, -, -, htr⟩ := uiServer_ok_main h
  have hsome : (s dbVol).isSome = false := by rw [habs]; rfl
  refine ⟨by rw [htr, hsome]; rfl, ?_, ?_⟩
  · rw [hR]
    unfold reconciledFS
    rw [if_neg (by decide), if_neg (by decide), if_neg (by decide), if_pos rfl,
      if_neg (by rw [hsome]; exact Bool.false_ne_true)]
    rfl
  · rw [hR]
    unfold reconciledFS
    rw [if_pos rfl]

theorem c4_witness :
    fs0 dbVol = none ∧
    tr0 = [Ev.rm outputLink, Ev.rm cacheLink,
      Ev.ln mntOutput outputLink, Ev.ln mntCache cacheLink,
      Ev.mkdirs datasetsDir, Ev.mkdirs jobsDir, Ev.mkdirs modelsDir,
      Ev.mkdirs mntCache, Ev.chmod mntOutput, Ev.chmod mntCache,
      Ev.mkdirs dbDir, Ev.rm dbLocal, Ev.rm dbJournal,
      Ev.dbInit, Ev.cp dbLocal dbVol, Ev.ln dbVol dbLocal, Ev.launch] ∧
    fs0run dbVol = some (.file d0) ∧ fs0run dbLocal = some (.symlink dbVol) := by
  have habs : fs0 dbVol = none := rfl
  have h : uiServer (some d0) fs0 = (.ok fs0run, tr0) := rfl
  obtain ⟨h1, h2, h3⟩ := c4_first_run_initializes_database habs h
  exact ⟨habs, h1, h2, h3⟩

/-- C5: when the durable database file is already present at the start of a
successful run, the init-and-copy sub-step is skipped entirely (no `dbInit`
and no `cp` event occurs), the durable file's contents are unchanged, and
the local link to it is (re)created. -/
theorem c5_existing_database_preserved {pr : Option (List Nat)} {d : List Nat}
    {s s' : FS} {tr : List Ev} (hex : s dbVol = some (.file d))
    (h : uiServer pr s = (.ok s', tr)) :
    s' dbVol = some (.file d) ∧ tr = mkTrace true ∧ Ev.dbInit ∉ tr ∧
      Ev.cp dbLocal dbVol ∉ tr ∧ s' dbLocal = some (.symlink dbVol) := by
  obtain ⟨hR, -, -, -, htr⟩ := uiServer_ok_main h
  have hsome : (s dbVol).isSome = true := by rw [hex]; rfl
  have htr1 : tr = mkTrace true := by rw [htr, hsome]
  refine ⟨?_, htr1, by rw [htr1]; decide, by rw [htr1]; decide, ?_⟩
  · rw [hR]
    unfold reconciledFS
    rw [if_neg (by decide), if_neg (by decide), if_neg (by decide), if_pos rfl,
      if_pos hsome, hex]
  · rw [hR]
    unfold reconciledFS
    rw [if_pos rfl]

theorem c5_witness :
    fsP dbVol = some (.file [3]) ∧
    runFS (uiServer (some d0) fsP) dbVol = some (.file [3]) ∧
    Ev.dbInit ∉ (uiServer (some d0) fsP).2 := by
  have hex : fsP dbVol = some (.file [3]) := rfl
  have h : uiServer (some d0) fsP =
      (.ok (runFS (uiServer (some d0) fsP)), (uiServer (some d0) fsP).2) := rfl
  obtain ⟨h1, -, h3, -, -⟩ := c5_existing_database_preserved hex h
  exact ⟨hex, h1, h3⟩

/-- C6: starting from the cold-start state whose durable volumes are empty,
one successful run produces exactly the subdirectories `datasets`, `jobs`,
`models` and `database` under the output volume root, one initialized
database file inside `database`, and the three symbolic links at the
toolkit's expected local paths; no other entry exists under the output
volume root. -/
theorem c6_empty_volume_layout {s' : FS} {tr : List Ev}
    (h : uiServer (some d0) fs0 = (.ok s', tr)) :
    s' datasetsDir = some Node.dir ∧ s' jobsDir = some Node.dir ∧
    s' modelsDir = some Node.dir ∧ s' dbDir = some Node.dir ∧
    s' dbVol = some (.file d0) ∧
    s' outputLink = some (.symlink mntOutput) ∧
    s' cacheLink = some (.symlink mntCache) ∧
    s' dbLocal = some (.symlink dbVol) ∧
    (∀ q, isUnder mntOutput q = true →
      q ∉ [mntOutput, datasetsDir, jobsDir, modelsDir, dbDir, dbVol] →
      s' q = none) := by
  obtain ⟨hR, -, -, -, -⟩ := uiServer_ok_main h
  refine ⟨?_, ?_, ?_, ?_, ?_, ?_, ?_, ?_, ?_⟩
  · rw [hR]
    exact reconciled_allMk _ _ (by decide)
  · rw [hR]
    exact reconciled_allMk _ _ (by decide)
  · rw [hR]
    exact reconciled_allMk _ _ (by decide)
  · rw [hR]
    exact reconciled_allMk _ _ (by decide)
  · rw [hR]
    unfold reconciledFS
    rw [if_neg (by decide), if_neg (by decide), if_neg (by decide), if_pos rfl,
      if_neg (by decide)]
    rfl
  · rw [hR]
    unfold reconciledFS
    rw [if_neg (by decide), if_pos rfl]
  · rw [hR]
    unfold reconciledFS
    rw [if_neg (by decide), if_neg (by decide), if_pos rfl]
  · rw [hR]
    unfold reconciledFS
    rw [if_pos rfl]
  · intro q hq hmem
    rw [hR]
    have hd : q ≠ dbLocal := ne_of_under hq (by decide)
    have ho : q ≠ outputLink := ne_of_under hq (by decide)
    have hc : q ≠ cacheLink := ne_of_under hq (by decide)
    have hv : q ≠ dbVol := fun hz => hmem (by rw [hz]; decide)
    have hm : q ∉ allMk := fun hz =>
      hmem ((by decide : ∀ m ∈ allMk, isUnder mntOutput m = true →
        m ∈ [mntOutput, datasetsDir, jobsDir, modelsDir, dbDir, dbVol]) q hz hq)
    have h1 : isUnder outputLink q = false := under_disjoint hq (by decide) (by decide)
    have h2 : isUnder cacheLink q = false := under_disjoint hq (by decide) (by decide)
    have h3 : isUnder dbLocal q = false := under_disjoint hq (by decide) (by decide)
    have h4 : isUnder dbJournal q = false := under_disjoint hq (by decide) (by decide)
    unfold reconciledFS
    rw [if_neg hd, if_neg ho, if_neg hc, if_neg hv, if_neg hm,
      if_neg (by simp [h1, h2, h3, h4])]
    have hA : ¬(q = ["root"] ∨ q = ["root", "ai-toolkit"] ∨
        q = ["root", "ai-toolkit", "ui"] ∨ q = prismaDir ∨ q = ["mnt"] ∨
        q = mntOutput ∨ q = mntCache) := by
      rintro (hz | hz | hz | hz | hz | hz | hz)
      · rw [hz] at hq
        exact absurd hq (by decide)
      · rw [hz] at hq
        exact absurd hq (by decide)
      · rw [hz] at hq
        exact absurd hq (by decide)
      · rw [hz] at hq
        exact absurd hq (by decide)
      · rw [hz] at hq
        exact absurd hq (by decide)
      · exact hmem (by rw [hz]; decide)
      · rw [hz] at hq
        exact absurd hq (by decide)
    unfold fs0
    rw [if_neg hA, if_neg hd]

theorem c6_witness :
    uiServer (some d0) fs0 = (.ok fs0run, tr0) ∧
    fs0run dbVol = some (.file d0) ∧
    isUnder mntOutput ["mnt", "output", "stray"] = true ∧
    ["mnt", "output", "stray"] ∉ [mntOutput, datasetsDir, jobsDir, modelsDir,
      dbDir, dbVol] ∧
    fs0run ["mnt", "output", "stray"] = none := by
  have h : uiServer (some d0) fs0 = (.ok fs0run, tr0) := rfl
  obtain ⟨-, -, -, -, hdbv, -, -, -, hex⟩ := c6_empty_volume_layout h
  exact ⟨h, hdbv, by decide, by decide, hex _ (by decide) (by decide)⟩

/-- C7: when the requested source path does not exist, `download_files`
raises `FileNotFoundError` to its caller with the filesystem exactly as it
was --- the existence check precedes any directory creation or copy, so no
destination file or parent directory is created. -/
theorem c7_download_missing_source_no_mutation {s : FS} {r l : String}
    (h : s (srcPathOf r) = none) :
    downloadFiles s r l = .error (.notFound r, s) := by
  simp only [downloadFiles, h]

theorem c7_witness :
    fs0 (srcPathOf "nope") = none ∧
    downloadFiles fs0 "nope" "/root/out.bin" = .error (.notFound "nope", fs0) := by
  have h : fs0 (srcPathOf "nope") = none := rfl
  exact ⟨h, c7_download_missing_source_no_mutation h⟩

/-- A state with a local file at `/root/m.bin` and an empty durable output
volume: the setting in which the spec's upload helper would copy the file
into the volume. -/
def sUp : FS := fun p =>
  if p = ["root"] ∨ p = ["mnt"] ∨ p = mntOutput then some .dir
  else if p = ["root", "m.bin"] then some (.file [9])
  else none

/-- C8 counterexample: the repository exposes no upload helper.  Its only
transfer helper, `download_files`, invoked with a local file present and
the volume path absent, raises not-found and writes nothing into the
durable volume --- whereas the upload operation the spec describes
(`uploadFilesSpec`, modelled from the spec's words) would have copied the
file into the volume. -/
theorem c8_no_upload_helper_counterexample :
    downloadFiles sUp "m.bin" "/root/m.bin" = .error (.notFound "m.bin", sUp) ∧
    resultAt (downloadFiles sUp "m.bin" "/root/m.bin") ["mnt", "output", "m.bin"] =
      none ∧
    resultAt (uploadFilesSpec sUp "/root/m.bin" "m.bin") ["mnt", "output", "m.bin"] =
      some (.file [9]) := by
  exact ⟨rfl, by decide, by decide⟩

/-- C8 (amended): the transfer helper the repository does expose,
`download_files`, copies a path from the durable volume to a local
destination, creating the needed parent directories, distinguishing
single-file copy (destination ends up with the source's exact contents)
from recursive directory copy (a merge that keeps destination entries with
no source counterpart), and failing with a not-found error when the source
is absent. -/
theorem c8_download_helper_contract (s : FS) (r l : String) :
    (s (srcPathOf r) = none → downloadFiles s r l = .error (.notFound r, s)) ∧
    (∀ d s1, s (srcPathOf r) = some (.file d) →
      mkdirs s (parent (dstPathOf l)) = .ok s1 →
      s1 (dstPathOf l) ≠ some Node.dir →
      downloadFiles s r l = .ok (setEntry s1 (dstPathOf l) (some (.file d))) ∧
        setEntry s1 (dstPathOf l) (some (.file d)) (dstPathOf l) = some (.file d)) ∧
    (∀ s1, s (srcPathOf r) = some Node.dir →
      mkdirs s (dstPathOf l) = .ok s1 →
      downloadFiles s r l = .ok (copyTree s1 (srcPathOf r) (dstPathOf l)) ∧
        (∀ q, stripPre (dstPathOf l) q = none →
          copyTree s1 (srcPathOf r) (dstPathOf l) q = s1 q) ∧
        (∀ q rq, stripPre (dstPathOf l) q = some rq →
          s1 (srcPathOf r ++ rq) = none →
          copyTree s1 (srcPathOf r) (dstPathOf l) q = s1 q)) := by
  refine ⟨?_, ?_, ?_⟩
  · intro h
    simp only [downloadFiles, h]
  · intro d s1 hsrc hmk hnd
    have hs1src : s1 (srcPathOf r) = some (.file d) := by
      by_cases hmem : srcPathOf r ∈ prefixesOf (parent (dstPathOf l))
      · rcases mkdirs_ok_inputs hmk _ hmem with hz | hz
        · rw [hsrc] at hz
          cases hz
        · rw [hsrc] at hz
          cases hz
      · rw [mkdirs_frame hmk hmem]
        exact hsrc
    have hrun : downloadFiles s r l =
        .ok (copy2 s1 (srcPathOf r) (dstPathOf l)) := by
      simp only [downloadFiles, hsrc, mkdirsE, hmk]
    have hc2 : copy2 s1 (srcPathOf r) (dstPathOf l) =
        setEntry s1 (dstPathOf l) (some (.file d)) := by
      cases hdst : s1 (dstPathOf l) with
      | none => simp only [copy2, hs1src, hdst]
      | some n =>
        cases n with
        | dir => exact absurd hdst hnd
        | file d2 => simp only [copy2, hs1src, hdst]
        | symlink t2 => simp only [copy2, hs1src, hdst]
    rw [hrun, hc2]
    exact ⟨rfl, setEntry_self _ _ _⟩
  · intro s1 hsrc hmk
    refine ⟨by simp only [downloadFiles, hsrc, mkdirsE, hmk], ?_, ?_⟩
    · intro q hstrip
      simp only [copyTree, hstrip]
    · intro q rq hstrip hnone
      simp only [copyTree, hstrip, hnone]

/-- A state with a single file `a` inside the durable output volume. -/
def sW : FS := fun p =>
  if p = ["root"] ∨ p = ["mnt"] ∨ p = mntOutput then some .dir
  else if p = ["mnt", "output", "a"] then some (.file [5])
  else none

theorem c8_witness :
    sW (srcPathOf "a") = some (.file [5]) ∧
    mkdirs sW (parent (dstPathOf "/root/out/a.bin")) =
      .ok (mkdirsOut sW (parent (dstPathOf "/root/out/a.bin"))) ∧
    downloadFiles sW "a" "/root/out/a.bin" =
      .ok (setEntry (mkdirsOut sW (parent (dstPathOf "/root/out/a.bin")))
        (dstPathOf "/root/out/a.bin") (some (.file [5]))) := by
  have h1 : sW (srcPathOf "a") = some (.file [5]) := rfl
  have h2 : mkdirs sW (parent (dstPathOf "/root/out/a.bin")) =
      .ok (mkdirsOut sW (parent (dstPathOf "/root/out/a.bin"))) := rfl
  have h3 : (mkdirsOut sW (parent (dstPathOf "/root/out/a.bin")))
      (dstPathOf "/root/out/a.bin") ≠ some Node.dir := by decide
  exact ⟨h1, h2,
    ((c8_download_helper_contract sW "a" "/root/out/a.bin").2.1 [5] _ h1 h2 h3).1⟩

/-- C9: when the durable database file is absent and the external
database-initialization command fails (so neither it nor the copy produces
the durable file), the reconciler still completes: the final `ln -sf`
succeeds, leaving the local database path as a dangling symlink to the
non-existent durable file, and the server is launched anyway. -/
theorem c9_failed_db_init_still_launches {s : FS}
    (hroot : s ["root"] = some Node.dir)
    (hait : s ["root", "ai-toolkit"] = some Node.dir)
    (hpris : s prismaDir = some Node.dir)
    (hmk : ∀ m ∈ allMk, s m = none ∨ s m = some Node.dir)
    (habs : s dbVol = none) :
    ∃ s', uiServer none s = (.ok s', mkTrace false) ∧
      s' dbLocal = some (.symlink dbVol) ∧ s' dbVol = none ∧
      Ev.launch ∈ mkTrace false := by
  obtain ⟨u, tr, hu⟩ := uiServer_runs none hroot hait hpris hmk
  obtain ⟨hR, -, -, -, htr⟩ := uiServer_ok_main hu
  have hsome : (s dbVol).isSome = false := by rw [habs]; rfl
  refine ⟨u, ?_, ?_, ?_, by decide⟩
  · rw [hu, htr, hsome]
  · rw [hR]
    unfold reconciledFS
    rw [if_pos rfl]
  · rw [hR]
    unfold reconciledFS
    rw [if_neg (by decide), if_neg (by decide), if_neg (by decide), if_pos rfl,
      if_neg (by rw [hsome]; exact Bool.false_ne_true)]
    rfl

theorem c9_witness :
    (∀ m ∈ allMk, fs0 m = none ∨ fs0 m = some Node.dir) ∧ fs0 dbVol = none ∧
    (∃ s', uiServer none fs0 = (.ok s', mkTrace false) ∧
      s' dbLocal = some (.symlink dbVol) ∧ s' dbVol = none ∧
      Ev.launch ∈ mkTrace false) :=
  ⟨by decide, rfl, c9_failed_db_init_still_launches rfl rfl rfl (by decide) rfl⟩

/-- A state with a sensitive file at `/etc/passwd` and an empty durable
output volume. -/
def sEtc : FS := fun p =>
  if p = ["root"] ∨ p = ["mnt"] ∨ p = mntOutput ∨ p = ["etc"] then some .dir
  else if p = ["etc", "passwd"] then some (.file [42])
  else none

/-- C10: `download_files` interpolates the caller-supplied `remote_path`
under `/mnt/output` with no sanitization, so a `remote_path` containing
`..` components resolves outside the volume root: with
`remote_path = "../../etc/passwd"` the helper's source path is
`/etc/passwd`, not a path under `/mnt/output`, and the helper copies that
outside file even though nothing exists inside the volume. -/
theorem c10_path_traversal_escapes_volume :
    srcPathOf "../../etc/passwd" = ["etc", "passwd"] ∧
    isUnder mntOutput (srcPathOf "../../etc/passwd") = false ∧
    sEtc ["mnt", "output", "passwd"] = none ∧
    resultAt (downloadFiles sEtc "../../etc/passwd" "/root/loot")
      ["root", "loot"] = some (.file [42]) := by
  exact ⟨by decide, by decide, by decide, by decide⟩

end Aitoolkit
